import Mathlib

/-!
Shallow embedding of the `tid` crate (src/lib.rs): a minimal elapsed-time
measurement utility consisting of the `timed!` macro and the `Timer` struct.

Modelling conventions:
* `u64` timestamps are `Nat`; the (debug-mode panicking) unsigned subtraction
  `b - a` is modelled by `subU64`, which returns `none` on underflow.
* Rust's `{:9.4}` formatting of `(d as f64) / 1_000_000.0` is modelled by
  `fmtMs`: the exact rational `d / 1_000_000` rounded to four fractional
  decimal digits (round half to even), printed right-aligned in a field of
  minimum width 9.  `{:<26}` is `padRightTo 26`.
* `println!` output is modelled as the list of emitted lines (strings without
  the trailing newline).
* The `timed!` macro wraps caller statements; these are modelled as a state
  transformer `σ → Except ε σ`, where `Except.error` models a failure
  (panic / early exit) of the wrapped statements.
-/

namespace Tid

/-- Checked unsigned subtraction `b - a`, modelling Rust `u64` subtraction:
`none` is the underflow/panic branch. -/
def subU64 (b a : Nat) : Option Nat :=
  if a ≤ b then some (b - a) else none

/-- Left-align a string in a field of width `w` by appending spaces
(Rust format spec `{:<w}`); strings of length ≥ `w` are unchanged. -/
def padRightTo (w : Nat) (s : String) : String :=
  s ++ String.mk (List.replicate (w - s.length) ' ')

/-- Right-align a string in a field of width `w` by prepending spaces
(Rust numeric format default alignment); strings of length ≥ `w` are
unchanged. -/
def padLeftTo (w : Nat) (s : String) : String :=
  String.mk (List.replicate (w - s.length) ' ') ++ s

/-- The decimal digit character for `n % 10`. -/
def digitChar (n : Nat) : Char :=
  Char.ofNat (48 + n % 10)

/-- The exactly-four-digit decimal rendering of `fp < 10000`
(the `.4` fractional part of the format spec). -/
def frac4 (fp : Nat) : String :=
  String.mk [digitChar (fp / 1000), digitChar (fp / 100), digitChar (fp / 10), digitChar fp]

/-- Round `n / 100` to the nearest integer, ties to even: the value
`n / 1_000_000` (ms) expressed in units of `10^-4` ms, rounded to four
fractional digits as float formatting does. -/
def roundDiv100 (n : Nat) : Nat :=
  let q := n / 100
  let r := n % 100
  if r < 50 then q
  else if 50 < r then q + 1
  else if q % 2 = 0 then q else q + 1

/-- Model of Rust `{:9.4}` applied to `(d as f64) / 1_000_000.0`, where `d` is
elapsed nanoseconds: fixed-point with exactly 4 fractional digits, right
aligned to a minimum field width of 9. -/
def fmtMs (d : Nat) : String :=
  let scaled := roundDiv100 d
  padLeftTo 9 (Nat.repr (scaled / 10000) ++ "." ++ frac4 (scaled % 10000))

/-- The single line printed by the `timed!` macro:
`println!("[timed] {:<26} {:9.4}ms", name, (t1 - t0) as f64 / 1_000_000.0)`. -/
def timedLine (label : String) (d : Nat) : String :=
  "[timed] " ++ padRightTo 26 label ++ " " ++ fmtMs d ++ "ms"

/-- One line printed by `Timer::present`:
`println!("\t[timer] {:<26} {:9.4}ms", s, time as f64 / 1_000_000.0)`. -/
def timerLine (label : String) (d : Nat) : String :=
  "\t[timer] " ++ padRightTo 26 label ++ " " ++ fmtMs d ++ "ms"

/-- Outcome of executing the `timed!` macro expansion: normal completion with
the final state and the printed lines, a propagated failure of the wrapped
statements, or a panic of the macro itself (`t1 - t0` underflow). -/
inductive TimedOutcome (ε σ : Type) where
  | ok : σ → List String → TimedOutcome ε σ
  | err : ε → TimedOutcome ε σ
  | panicked : TimedOutcome ε σ
  deriving DecidableEq

/-- Shallow embedding of the `timed!` macro expansion:
`let t0 = _time(); $block; let t1 = _time(); println!(...)`.
The two clock reads are the parameters `clock0` (taken before the block) and
`clock1` (taken after); the block is the state transformer `body`. -/
def timed {σ ε : Type} (label : String) (clock0 : Nat) (body : σ → Except ε σ)
    (clock1 : Nat) (s : σ) : TimedOutcome ε σ :=
  let t0 := clock0
  match body s with
  | Except.error e => TimedOutcome.err e
  | Except.ok s1 =>
    let t1 := clock1
    match subU64 t1 t0 with
    | none => TimedOutcome.panicked
    | some d => TimedOutcome.ok s1 [timedLine label d]

/-- Instrument a state transformer with an invocation counter, to express
that `timed` runs its body exactly once. -/
def instrument {σ ε : Type} (body : σ → Except ε σ) : σ × Nat → Except ε (σ × Nat) :=
  fun p =>
    match body p.1 with
    | Except.error e => Except.error e
    | Except.ok s2 => Except.ok (s2, p.2 + 1)

/-- The `Timer` struct: parallel vectors of timestamps and labels. -/
structure Timer where
  times : List Nat
  strs : List String
  deriving DecidableEq

/-- `Timer::new`: empty vectors, then the construction-time clock reading
(the parameter `t`) is pushed onto `times`. -/
def Timer.new (t : Nat) : Timer :=
  { times := [t], strs := [] }

/-- `Timer::mark`: push the current clock reading (the parameter `t`) onto
`times` and the label onto `strs`. -/
def Timer.mark (tm : Timer) (t : Nat) (label : String) : Timer :=
  { times := tm.times ++ [t], strs := tm.strs ++ [label] }

/-- The sequence of checked differences of consecutive elements, modelling
`times.iter().zip(times.iter().skip(1)).map(|(a, b)| b - a)` with the
panicking `u64` subtraction: `none` if any pair underflows. -/
def diffsChecked : List Nat → Option (List Nat)
  | a :: b :: rest =>
    match subU64 b a with
    | none => none
    | some d =>
      match diffsChecked (b :: rest) with
      | none => none
      | some ds => some (d :: ds)
  | _ => some []

/-- `Timer::present`: zip the consecutive-pair differences with the labels and
print one line per pair.  Returns the list of printed lines, or `none` if a
subtraction panicked. -/
def Timer.present (tm : Timer) : Option (List String) :=
  match diffsChecked tm.times with
  | none => none
  | some ds => some ((ds.zip tm.strs).map fun p => timerLine p.2 p.1)

/-- The consecutive-pair differences with truncated subtraction (the value
`diffsChecked` computes when no pair underflows). -/
def diffsOf : List Nat → List Nat
  | a :: b :: rest => (b - a) :: diffsOf (b :: rest)
  | _ => []

/-- Timer states reachable through the public API: `Timer::new` followed by
any number of `Timer::mark` calls. -/
inductive Timer.Reachable : Timer → Prop
  | new (t : Nat) : Timer.Reachable (Timer.new t)
  | mark (tm : Timer) (t : Nat) (l : String) :
      Timer.Reachable tm → Timer.Reachable (tm.mark t l)

/-- A list of clock readings is non-decreasing (consecutive pairs ordered),
the guarantee a monotonic clock gives for timestamps taken in call order. -/
def nondecreasing : List Nat → Bool
  | a :: b :: rest => decide (a ≤ b) && nondecreasing (b :: rest)
  | _ => true

/-! Supporting lemmas. -/

theorem append_mk_nil (s : String) : s ++ String.mk [] = s :=
  String.append_empty s

theorem padRightTo_of_length_eq (w : Nat) (s : String) (h : s.length = w) :
    padRightTo w s = s := by
  show s ++ String.mk (List.replicate (w - s.length) ' ') = s
  rw [h, Nat.sub_self]
  exact String.append_empty s

theorem padRightTo_of_lt (w : Nat) (s : String) (h : w < s.length) :
    padRightTo w s = s := by
  show s ++ String.mk (List.replicate (w - s.length) ' ') = s
  rw [Nat.sub_eq_zero_of_le (Nat.le_of_lt h)]
  exact String.append_empty s

theorem length_padLeftTo (w : Nat) (s : String) :
    (padLeftTo w s).length = (w - s.length) + s.length := by
  show (String.mk (List.replicate (w - s.length) ' ') ++ s).length = _
  rw [String.length_append]
  congr 1
  exact List.length_replicate _ _

theorem diffsChecked_of_nondecreasing :
    ∀ ts : List Nat, nondecreasing ts = true → diffsChecked ts = some (diffsOf ts)
  | [], _ => rfl
  | [_], _ => rfl
  | a :: b :: rest, h => by
    rw [nondecreasing] at h
    have hab : a ≤ b := by
      have := Bool.and_elim_left h
      exact of_decide_eq_true this
    have htail : nondecreasing (b :: rest) = true := Bool.and_elim_right h
    have ih := diffsChecked_of_nondecreasing (b :: rest) htail
    simp [diffsChecked, diffsOf, subU64, hab, ih]

theorem length_diffsOf : ∀ ts : List Nat, (diffsOf ts).length = ts.length - 1
  | [] => rfl
  | [_] => rfl
  | _ :: b :: rest => by
    have ih := length_diffsOf (b :: rest)
    simp [diffsOf] at ih ⊢
    omega

theorem getD_diffsOf :
    ∀ (ts : List Nat) (i : Nat), i + 1 < ts.length →
      (diffsOf ts).getD i 0 = ts.getD (i + 1) 0 - ts.getD i 0
  | _ :: _ :: _, 0, _ => rfl
  | _ :: b :: rest, i + 1, h => by
    have ih := getD_diffsOf (b :: rest) i (by simpa using h)
    simpa [diffsOf] using ih

theorem getD_zip_timerLine :
    ∀ (ds : List Nat) (ls : List String) (i : Nat), i < ds.length → i < ls.length →
      ((ds.zip ls).map fun p => timerLine p.2 p.1).getD i "" =
        timerLine (ls.getD i "") (ds.getD i 0)
  | _ :: _, _ :: _, 0, _, _ => rfl
  | _ :: ds, _ :: ls, i + 1, h1, h2 => by
    have ih := getD_zip_timerLine ds ls i (by simpa using h1) (by simpa using h2)
    simpa [List.zip] using ih

/-! Claim theorems. -/

/-- C1: for every `Timer` with `n` marks recorded at timestamps `t[0..n]` and
labels `label[0..n-1]` (timestamps non-decreasing, as a monotonic clock
guarantees), `present` emits exactly `n` lines, one per consecutive timestamp
pair in capture order, where line `i` pairs `label[i]` with the elapsed
nanoseconds `t[i+1] - t[i]` rendered as milliseconds (division by 1,000,000
inside `timerLine`/`fmtMs`), with no reordering and no deduplication. -/
theorem present_emits_one_line_per_mark (tm : Timer) (n : Nat)
    (hs : tm.strs.length = n) (ht : tm.times.length = n + 1)
    (hmono : nondecreasing tm.times = true) :
    ∃ lines : List String, tm.present = some lines ∧ lines.length = n ∧
      ∀ i, i < n → lines.getD i "" =
        timerLine (tm.strs.getD i "") (tm.times.getD (i + 1) 0 - tm.times.getD i 0) := by
  refine ⟨((diffsOf tm.times).zip tm.strs).map fun p => timerLine p.2 p.1, ?_, ?_, ?_⟩
  · rw [Timer.present, diffsChecked_of_nondecreasing _ hmono]
  · rw [List.length_map, List.length_zip, length_diffsOf, hs, ht]
    omega
  · intro i hi
    rw [getD_zip_timerLine _ _ i (by rw [length_diffsOf, ht]; omega) (by omega),
      getD_diffsOf _ i (by omega)]

/-- C1 witness: the theorem applied to the timer with timestamps
`[0, 5, 7]` and labels `["x", "y"]`. -/
theorem present_emits_one_line_per_mark_witness :
    ∃ lines : List String, (Timer.mk [0, 5, 7] ["x", "y"]).present = some lines ∧
      lines.length = 2 ∧
      ∀ i, i < 2 → lines.getD i "" =
        timerLine ((Timer.mk [0, 5, 7] ["x", "y"]).strs.getD i "")
          ((Timer.mk [0, 5, 7] ["x", "y"]).times.getD (i + 1) 0 -
            (Timer.mk [0, 5, 7] ["x", "y"]).times.getD i 0) :=
  present_emits_one_line_per_mark (Timer.mk [0, 5, 7] ["x", "y"]) 2
    (by decide) (by decide) (by decide)

/-- C2: a timer whose recorded timestamps are
`[0, 100000000, 250000000, 300000000]` with labels `["a", "b", "c"]` presents
exactly 3 lines with elapsed values `100.0000ms`, `150.0000ms`, `50.0000ms`
in that order, each prefixed with a tab character and the tag `[timer]`. -/
theorem present_concrete_three_marks :
    ((((Timer.new 0).mark 100000000 "a").mark 250000000 "b").mark 300000000 "c").present =
      some ["\t[timer] a                           100.0000ms",
        "\t[timer] b                           150.0000ms",
        "\t[timer] c                            50.0000ms"] := by
  decide

/-- C3: for clock reads `t0 ≤ t1` around a block that completes, the
`timed!` construct emits exactly one line
`"[timed] " ++ label padded to 26 ++ " " ++ elapsed ++ "ms"`, where the
elapsed field is `fmtMs (t1 - t0)`: the value `(t1 - t0) / 1_000_000`
rendered with exactly 4 fractional digits in a field of minimum width 9. -/
theorem timed_line_format {σ ε : Type} (label : String) (t0 t1 : Nat)
    (body : σ → Except ε σ) (s s1 : σ) (h : t0 ≤ t1) (hb : body s = Except.ok s1) :
    timed label t0 body t1 s =
      TimedOutcome.ok s1 ["[timed] " ++ padRightTo 26 label ++ " " ++ fmtMs (t1 - t0) ++ "ms"] ∧
    9 ≤ (fmtMs (t1 - t0)).length ∧
    ∃ fp, fp < 10000 ∧
      fmtMs (t1 - t0) =
        padLeftTo 9 (Nat.repr (roundDiv100 (t1 - t0) / 10000) ++ "." ++ frac4 fp) ∧
      (frac4 fp).length = 4 := by
  refine ⟨?_, ?_, roundDiv100 (t1 - t0) % 10000, Nat.mod_lt _ (by omega), rfl, rfl⟩
  · simp [timed, hb, subU64, h, timedLine]
  · rw [fmtMs, length_padLeftTo]
    omega

/-- C3 witness: the theorem applied to label `"lbl"`, clock reads `0` and
`1234567`, and the successful body `fun n => Except.ok (n + 1)` on state `0`. -/
theorem timed_line_format_witness :
    timed "lbl" 0 (fun n : Nat => (Except.ok (n + 1) : Except Unit Nat)) 1234567 0 =
      TimedOutcome.ok 1
        ["[timed] " ++ padRightTo 26 "lbl" ++ " " ++ fmtMs (1234567 - 0) ++ "ms"] ∧
    9 ≤ (fmtMs (1234567 - 0)).length ∧
    ∃ fp, fp < 10000 ∧
      fmtMs (1234567 - 0) =
        padLeftTo 9 (Nat.repr (roundDiv100 (1234567 - 0) / 10000) ++ "." ++ frac4 fp) ∧
      (frac4 fp).length = 4 :=
  timed_line_format "lbl" 0 1234567 (fun n => Except.ok (n + 1)) 0 1 (by omega) rfl

/-- C4: a `Timer` on which zero `mark` operations were performed presents
zero output lines. -/
theorem present_zero_marks (t : Nat) : (Timer.new t).present = some [] := rfl

/-- C5: every `Timer` reachable through the public API satisfies the
invariant `len(strs) = len(times) - 1` (stated as `len(strs) + 1 =
len(times)`, since `times` is never empty); `Timer::new` establishes one
timestamp and zero labels, and each `mark` appends exactly one timestamp and
exactly one label, preserving the invariant. -/
theorem timer_invariant :
    (∀ tm : Timer, Timer.Reachable tm → tm.strs.length + 1 = tm.times.length) ∧
    (∀ t : Nat, (Timer.new t).times = [t] ∧ (Timer.new t).strs = []) ∧
    (∀ (tm : Timer) (t : Nat) (l : String),
      (tm.mark t l).times = tm.times ++ [t] ∧ (tm.mark t l).strs = tm.strs ++ [l]) := by
  refine ⟨?_, fun _ => ⟨rfl, rfl⟩, fun _ _ _ => ⟨rfl, rfl⟩⟩
  intro tm hr
  induction hr with
  | new t => rfl
  | mark tm t l _ ih => simp [Timer.mark, ih]

/-- C5 witness: the invariant at the reachable state `(new 3).mark 5 "a"`. -/
theorem timer_invariant_witness :
    ((Timer.new 3).mark 5 "a").strs.length + 1 = ((Timer.new 3).mark 5 "a").times.length :=
  timer_invariant.1 ((Timer.new 3).mark 5 "a")
    (Timer.Reachable.mark (Timer.new 3) 5 "a" (Timer.Reachable.new 3))

/-- C6: both output lines left-align the label in a 26-character column via
`padRightTo 26`: a 26-character label gets no added padding, a 3-character
label is followed by exactly 23 spaces, and a longer-than-26-character label
is emitted in full, untruncated and unpadded. -/
theorem label_padding :
    (∀ s : String, s.length = 26 → padRightTo 26 s = s) ∧
    (∀ s : String, s.length = 3 → padRightTo 26 s = s ++ String.mk (List.replicate 23 ' ')) ∧
    (∀ s : String, 26 < s.length → padRightTo 26 s = s) ∧
    (∀ (s : String) (d : Nat),
      timedLine s d = "[timed] " ++ padRightTo 26 s ++ " " ++ fmtMs d ++ "ms") ∧
    (∀ (s : String) (d : Nat),
      timerLine s d = "\t[timer] " ++ padRightTo 26 s ++ " " ++ fmtMs d ++ "ms") := by
  refine ⟨fun s h => padRightTo_of_length_eq 26 s h, ?_,
    fun s h => padRightTo_of_lt 26 s h, fun _ _ => rfl, fun _ _ => rfl⟩
  intro s h
  show s ++ String.mk (List.replicate (26 - s.length) ' ') = _
  rw [h]

/-- C6 witness: the padding facts at a 26-character, a 3-character and a
27-character label. -/
theorem label_padding_witness :
    padRightTo 26 "abcdefghijklmnopqrstuvwxyz" = "abcdefghijklmnopqrstuvwxyz" ∧
    padRightTo 26 "abc" = "abc" ++ String.mk (List.replicate 23 ' ') ∧
    padRightTo 26 "abcdefghijklmnopqrstuvwxyz0" = "abcdefghijklmnopqrstuvwxyz0" :=
  ⟨label_padding.1 "abcdefghijklmnopqrstuvwxyz" (by decide),
    label_padding.2.1 "abc" (by decide),
    label_padding.2.2.1 "abcdefghijklmnopqrstuvwxyz0" (by decide)⟩

/-- C7: the `timed!` construct runs the caller's statements exactly once
(the invocation counter of the instrumented body ends at exactly 1) and does
not transform their behaviour: the resulting state is exactly the state the
body produced. -/
theorem timed_runs_body_once {σ ε : Type} (label : String) (t0 t1 : Nat)
    (body : σ → Except ε σ) (s s1 : σ) (h : t0 ≤ t1) (hb : body s = Except.ok s1) :
    timed label t0 (instrument body) t1 (s, 0) =
      TimedOutcome.ok (s1, 1) [timedLine label (t1 - t0)] := by
  simp [timed, instrument, hb, subU64, h]

/-- C7 witness: the theorem applied to the body `fun n => Except.ok (n + 3)`
on state `4` with clock reads `0` and `5`. -/
theorem timed_runs_body_once_witness :
    timed "x" 0 (instrument fun n : Nat => (Except.ok (n + 3) : Except Unit Nat)) 5 (4, 0) =
      TimedOutcome.ok (7, 1) [timedLine "x" (5 - 0)] :=
  timed_runs_body_once "x" 0 5 (fun n => Except.ok (n + 3)) 4 7 (by omega) rfl

/-- C8: if the wrapped statements fail, the failure propagates unchanged out
of the `timed!` construct and the timing line is never printed (the outcome
carries the original error and no output lines). -/
theorem timed_propagates_failure {σ ε : Type} (label : String) (t0 t1 : Nat)
    (body : σ → Except ε σ) (s : σ) (e : ε) (hb : body s = Except.error e) :
    timed label t0 body t1 s = TimedOutcome.err e := by
  simp [timed, hb]

/-- C8 witness: the theorem applied to the failing body
`fun _ => Except.error 42` on state `0` with clock reads `1` and `2`. -/
theorem timed_propagates_failure_witness :
    timed "x" 1 (fun _ : Nat => (Except.error 42 : Except Nat Nat)) 2 0 =
      TimedOutcome.err 42 :=
  timed_propagates_failure "x" 1 2 (fun _ => Except.error 42) 0 42 rfl

/-- C9: under the precondition that clock readings are non-decreasing, no
unsigned 64-bit subtraction underflows: `present` never hits the panic
branch (it returns `some`), and the `timed!` construct never panics on
`t1 - t0`. -/
theorem no_underflow :
    (∀ tm : Timer, nondecreasing tm.times = true → tm.present.isSome = true) ∧
    (∀ (σ ε : Type) (label : String) (t0 t1 : Nat) (body : σ → Except ε σ) (s : σ),
      t0 ≤ t1 → timed label t0 body t1 s ≠ TimedOutcome.panicked) := by
  constructor
  · intro tm h
    rw [Timer.present, diffsChecked_of_nondecreasing _ h]
    rfl
  · intro σ ε label t0 t1 body s h
    cases hb : body s with
    | error e => simp [timed, hb]
    | ok s1 => simp [timed, hb, subU64, h]

/-- C9 witness: the two parts at the timer with timestamps `[0, 5]` and at a
concrete `timed!` invocation with `t0 = 2 ≤ t1 = 9`. -/
theorem no_underflow_witness :
    (Timer.mk [0, 5] ["a"]).present.isSome = true ∧
    timed "x" 2 (fun n : Nat => (Except.ok n : Except Unit Nat)) 9 0 ≠
      TimedOutcome.panicked :=
  ⟨no_underflow.1 (Timer.mk [0, 5] ["a"]) (by decide),
    no_underflow.2 Nat Unit "x" 2 9 (fun n => Except.ok n) 0 (by omega)⟩

/-- C10: `mark` modifies a `Timer` only by appending the new timestamp and
the new label at the end of the respective sequences; since a `Timer` is
exactly these two fields, the resulting state is fully determined — nothing
else changes and all previously recorded entries keep their order. -/
theorem mark_appends_only (tm : Timer) (t : Nat) (l : String) :
    tm.mark t l = Timer.mk (tm.times ++ [t]) (tm.strs ++ [l]) := rfl

end Tid
